import Mathlib

/-!
# Verification of the eradicate comment-removal tool

A shallow embedding of `eradicate.py`, which removes commented-out Python
code from source text.  Source text is modelled as `List Char`; the Python
standard-library services that the code calls (`compile` as a parse oracle,
`tokenize.generate_tokens` as a token stream) are modelled abstractly by
parameters whose contracts follow the specification, since they are not part
of this repository.  Python's whitespace and word-character classes are
modelled at the ASCII level, which covers every character class the
program's own checks distinguish.
-/

set_option autoImplicit false

namespace Eradicate

/-- Python `str.isspace` characters, ASCII fragment: the default strip set of
`str.lstrip()` / `str.strip()` and the `\s` class of `re`. -/
def isPyWs (c : Char) : Bool :=
  c == ' ' || c == '\t' || c == '\n' || c == '\r' || c == '\x0b' || c == '\x0c'

/-- The explicit strip set of `line.lstrip(' \t\v\n#')` in
`comment_contains_code` (note: it has `#` and lacks `\r` and `\f`). -/
def isHashStrip (c : Char) : Bool :=
  c == ' ' || c == '\t' || c == '\x0b' || c == '\n' || c == '#'

/-- Python `\w` (word character), ASCII fragment: used for the `\b` boundary
after a keyword. -/
def isWordChar (c : Char) : Bool :=
  c.isAlphanum || c == '_'

/-- `str.lstrip()`. -/
def pyLstrip (s : List Char) : List Char :=
  List.dropWhile isPyWs s

/-- `str.rstrip()`. -/
def pyRstrip (s : List Char) : List Char :=
  (List.dropWhile isPyWs s.reverse).reverse

/-- `str.strip()`. -/
def pyStrip (s : List Char) : List Char :=
  pyLstrip (pyRstrip s)

/-- `a.startswith(p)` on character lists. -/
def startsWithChars : List Char → List Char → Bool
  | [], _ => true
  | _ :: _, [] => false
  | p :: ps, c :: cs => p == c && startsWithChars ps cs

/-- `a.endswith(p)` on character lists. -/
def endsWithChars (p s : List Char) : Bool :=
  startsWithChars p.reverse s.reverse

/-- Python's substring test `p in s`. -/
def containsSub (p : List Char) : List Char → Bool
  | [] => p.isEmpty
  | c :: cs => startsWithChars p (c :: cs) || containsSub p cs

/-- Remove an exact leading occurrence of `p` from `s`, or fail. -/
def stripStart : List Char → List Char → Option (List Char)
  | [], s => some s
  | _ :: _, [] => none
  | p :: ps, c :: cs => if p == c then stripStart ps cs else none

/-- The keyword and symbol constants of `comment_contains_code`, as character
lists. -/
def hashKw : List Char := ['#']

def printKw : List Char := ['p', 'r', 'i', 'n', 't']

def returnKw : List Char := ['r', 'e', 't', 'u', 'r', 'n']

def breakKw : List Char := ['b', 'r', 'e', 'a', 'k']

def continueKw : List Char := ['c', 'o', 'n', 't', 'i', 'n', 'u', 'e']

def importKw : List Char := ['i', 'm', 'p', 'o', 'r', 't']

def elseKw : List Char := ['e', 'l', 's', 'e']

def tryKw : List Char := ['t', 'r', 'y']

def finallyKw : List Char := ['f', 'i', 'n', 'a', 'l', 'l', 'y']

/-- `list('()[]{}:=')`: the symbol half of the plausibility gate. -/
def gateSymbols : List Char := ['(', ')', '[', ']', '{', '}', ':', '=']

/-- The keyword half of the plausibility gate. -/
def gateKeywords : List (List Char) :=
  [printKw, returnKw, breakKw, continueKw, importKw]

/-- The `for symbol in list('()[]{}:=') + [...]: if symbol in line: break /
else: return False` plausibility gate: true iff some gate symbol occurs as a
character of `s` or some gate keyword occurs as a substring of `s`. -/
def gatePasses (s : List Char) : Bool :=
  gateSymbols.any (fun c => s.contains c) ||
    gateKeywords.any (fun k => containsSub k s)

/-- The `for ending in ')]}': if line.endswith(ending + ':')` multi-line
block-header shortcut. -/
def endsColonShortcut (s : List Char) : Bool :=
  endsWithChars [')', ':'] s || endsWithChars [']', ':'] s ||
    endsWithChars ['}', ':'] s

/-- `re.match(r'^\s*' + symbol + r'\s*:\s*$', line)` for a literal keyword
`symbol`: optional whitespace, the keyword, optional whitespace, a colon,
optional whitespace, end of string. -/
def matchKwColon (kw s : List Char) : Bool :=
  match stripStart kw (List.dropWhile isPyWs s) with
  | none => false
  | some r =>
    match List.dropWhile isPyWs r with
    | ':' :: r2 => (List.dropWhile isPyWs r2).isEmpty
    | _ => false

/-- The `for symbol in ['else', 'try', 'finally']` bare-keyword-block
shortcut. -/
def kwColonShortcut (s : List Char) : Bool :=
  matchKwColon elseKw s || matchKwColon tryKw s || matchKwColon finallyKw s

/-- `re.sub('^' + kw + r'\b\s*', '', s)`: remove a leading whole-word
occurrence of `kw` together with the whitespace after it (at most one
occurrence, since the pattern is anchored at the start). -/
def stripLeadKw (kw s : List Char) : List Char :=
  match stripStart kw s with
  | none => s
  | some [] => []
  | some (c :: r) =>
    if isWordChar c then s else List.dropWhile isPyWs (c :: r)

/-- Modelled from the spec: the parse oracle (`compile(line, '<string>',
'exec')`, external to this repository) either succeeds or raises a syntax
error, a type error from the parse attempt, or a decoding error. -/
inductive CompileExc
  | syntaxError
  | typeError
  | unicodeDecodeError
deriving DecidableEq

/-- The exception classes listed in the `except (SyntaxError, TypeError,
UnicodeDecodeError)` clause of `comment_contains_code`. -/
def compileCaught : CompileExc → Bool
  | CompileExc.syntaxError => true
  | CompileExc.typeError => true
  | CompileExc.unicodeDecodeError => true

/-- A parse oracle: `none` when `compile` succeeds on the text, `some e` when
it raises `e`. -/
def Oracle : Type := List Char → Option CompileExc

/-- `line.lstrip(' \t\v\n#').strip()` applied after the initial
`line.lstrip()`: the bare text of a comment line. -/
def bareText (line : List Char) : List Char :=
  pyStrip (List.dropWhile isHashStrip (pyLstrip line))

/-- The sequential prefix normalization `for remove_beginning in ['print',
'return']: line = re.sub('^' + remove_beginning + r'\b\s*', '', line)`:
first a leading `print` is stripped, then a leading `return` is stripped
from the result. -/
def normalizeBareText (s : List Char) : List Char :=
  stripLeadKw returnKw (stripLeadKw printKw s)

/-- The text handed to the parse oracle for a given raw comment line. -/
def normalizeBare (line : List Char) : List Char :=
  normalizeBareText (bareText line)

/-- `comment_contains_code(line)`.  The result is an `Except` so that the
`try`/`except` around the `compile` call is explicit: `Except.error e` is an
exception escaping the function, which happens exactly when the oracle raises
an exception not listed in the `except` clause. -/
def comment_contains_code (oracle : Oracle) (line : List Char) :
    Except CompileExc Bool :=
  if !(startsWithChars hashKw (pyLstrip line)) then Except.ok false
  else if !(gatePasses (bareText line)) then Except.ok false
  else if endsColonShortcut (bareText line) then Except.ok true
  else if kwColonShortcut (bareText line) then Except.ok true
  else
    match oracle (normalizeBare line) with
    | none => Except.ok true
    | some e =>
      if compileCaught e then Except.ok false else Except.error e

/-- Whether classification of `line` reaches the `compile` call: the line is
a candidate comment, the plausibility gate passes, and neither shortcut
fires.  This depends only on the line, not on the oracle. -/
def reachesOracle (line : List Char) : Bool :=
  startsWithChars hashKw (pyLstrip line) && gatePasses (bareText line) &&
    !(endsColonShortcut (bareText line)) && !(kwColonShortcut (bareText line))

/-- Convenience: view a string literal as a character list. -/
def strChars (s : String) : List Char := s.data

/-! ## The tokenizer adapter and the line-number generator

`tokenize.generate_tokens` is standard-library code, modelled from the spec's
Tokenizer Adapter contract: it is an iterator producing token records — each
carrying a kind, a 1-based start row and the raw source line holding the
token — which may end by raising a `TokenError` or `IndentationError`.  An
iterator run is modelled as a list of events; events after an error event are
unreachable and are ignored by every consumer. -/

inductive TokKind
  | comment
  | other
deriving DecidableEq

/-- A token record: `token[0]` (kind, collapsed to COMMENT vs anything else),
`token[2][0]` (start row) and `token[4]` (raw line). -/
structure Token where
  kind : TokKind
  startRow : Nat
  line : List Char
deriving DecidableEq

/-- The exceptions `tokenize.generate_tokens` may raise per the spec's
failure modes, i.e. the classes in the `except (tokenize.TokenError,
IndentationError)` clause. -/
inductive TokErr
  | tokenError
  | indentationError
deriving DecidableEq

/-- Whether `commented_out_code_line_numbers` catches a tokenizer
exception. -/
def tokCaught : TokErr → Bool
  | TokErr.tokenError => true
  | TokErr.indentationError => true

/-- One production of the token iterator: a token, or a raised exception
ending the iteration. -/
inductive TokEvent
  | tok (t : Token)
  | err (e : TokErr)
deriving DecidableEq

/-- The tokens the `for` loop actually receives: the prefix of the event
stream before the first raised exception. -/
def scannedTokens : List TokEvent → List Token
  | [] => []
  | TokEvent.err _ :: _ => []
  | TokEvent.tok t :: rest => t :: scannedTokens rest

def isOkTrue : Except CompileExc Bool → Bool
  | Except.ok true => true
  | _ => false

/-- The condition under which the generator yields a token's start row:
`token_type == tokenize.COMMENT and line.lstrip().startswith('#') and
comment_contains_code(line)`. -/
def isCandidate (oracle : Oracle) (t : Token) : Bool :=
  decide (t.kind = TokKind.comment) &&
    startsWithChars hashKw (pyLstrip t.line) &&
    isOkTrue (comment_contains_code oracle t.line)

/-- `list(commented_out_code_line_numbers(source))`: runs the generator to
exhaustion.  The `try`/`except` is explicit: a caught exception ends the
iteration with the rows yielded so far; an uncaught one would discard them
and escape (`Except.error`). -/
def commented_out_code_line_numbers (oracle : Oracle) :
    List TokEvent → Except TokErr (List Nat)
  | [] => Except.ok []
  | TokEvent.err e :: _ =>
    if tokCaught e then Except.ok [] else Except.error e
  | TokEvent.tok t :: rest =>
    match commented_out_code_line_numbers oracle rest with
    | Except.ok ns =>
      Except.ok (if isCandidate oracle t then t.startRow :: ns else ns)
    | Except.error e => Except.error e

/-! ## The line filter and `fix_file` -/

/-- `StringIO(source).readlines()` with the default `newline='\n'` of
`StringIO`: split after every `'\n'`, keeping the terminator; a final chunk
with no terminator is kept only if non-empty. -/
def splitLines : List Char → List (List Char)
  | [] => []
  | c :: cs =>
    if c = '\n' then [c] :: splitLines cs
    else
      match splitLines cs with
      | [] => [[c]]
      | l :: ls => (c :: l) :: ls

/-- The loop of `filter_commented_out_code`: `for line_number, line in
enumerate(sio.readlines(), start=1): if line_number not in marked_lines:
yield line`, with `k` the number of the first line of `ls`. -/
def filter_lines (marked : List Nat) : Nat → List (List Char) → List (List Char)
  | _, [] => []
  | k, l :: ls =>
    if k ∈ marked then filter_lines marked (k + 1) ls
    else l :: filter_lines marked (k + 1) ls

/-- `list(filter_commented_out_code(source))`: an exception raised by the
generator while building `marked_lines` propagates. -/
def filter_commented_out_code (oracle : Oracle) (events : List TokEvent)
    (source : List Char) : Except TokErr (List (List Char)) :=
  match commented_out_code_line_numbers oracle events with
  | Except.ok marked => Except.ok (filter_lines marked 1 (splitLines source))
  | Except.error e => Except.error e

/-- The externally visible effect of `fix_file` on the file and the standard
output: nothing when filtered text equals the source, a rewrite of the file
in in-place mode, a unified diff of the two texts otherwise. -/
inductive FixAction
  | noChange
  | writeFile (content : List Char)
  | writeDiff (before after : List Char)
deriving DecidableEq

/-- `''.join(...)`. -/
def joinLines (ls : List (List Char)) : List Char :=
  ls.flatten

/-- `fix_file` after the source has been read: compute the filtered text and
act only if it differs from the source (`if source != filtered_source`). -/
def fix_file (inPlace : Bool) (oracle : Oracle) (events : List TokEvent)
    (source : List Char) : Except TokErr FixAction :=
  match filter_commented_out_code oracle events source with
  | Except.error e => Except.error e
  | Except.ok ls =>
    let filtered := joinLines ls
    Except.ok
      (if source = filtered then FixAction.noChange
       else if inPlace then FixAction.writeFile filtered
       else FixAction.writeDiff source filtered)

/-! ## The spec's reading of statement-prefix normalization -/

/-- Whether `s` begins with the whole word `kw` (so the anchored
`re.sub('^kw\b\s*', ...)` pattern matches). -/
def beginsWithWord (kw s : List Char) : Bool :=
  match stripStart kw s with
  | some [] => true
  | some (c :: _) => !isWordChar c
  | none => false

/-- Modelled from the spec's words, for comparison with the source's
`normalizeBareText`: "strip a single leading `print` or `return` keyword
(whole-word, followed by optional whitespace)" — one keyword, not a
sequence. -/
def strip_single_keyword (s : List Char) : List Char :=
  if beginsWithWord printKw s then stripLeadKw printKw s
  else if beginsWithWord returnKw s then stripLeadKw returnKw s
  else s

/-! ## Helper lemmas -/

/-- Whether an iterator event is a produced token (as opposed to a raised
exception). -/
def isTokEvent : TokEvent → Bool
  | TokEvent.tok _ => true
  | TokEvent.err _ => false

theorem scannedTokens_append_err :
    ∀ (pre : List TokEvent) (e : TokErr) (post : List TokEvent),
      (∀ ev ∈ pre, isTokEvent ev = true) →
      scannedTokens (pre ++ TokEvent.err e :: post) = scannedTokens pre
  | [], _, _, _ => rfl
  | TokEvent.err _ :: _, _, _, h => by
    have := h _ (List.mem_cons_self _ _)
    simp [isTokEvent] at this
  | TokEvent.tok t :: rest, e, post, h => by
    show t :: scannedTokens (rest ++ TokEvent.err e :: post) =
      t :: scannedTokens rest
    rw [scannedTokens_append_err rest e post
      (fun ev hev => h ev (List.mem_cons_of_mem _ hev))]

/-- The generator never lets a tokenizer exception escape, and its yields are
exactly the start rows of the candidate tokens among the tokens scanned
before the first failure. -/
theorem numbers_eq (oracle : Oracle) (events : List TokEvent) :
    commented_out_code_line_numbers oracle events =
      Except.ok
        (((scannedTokens events).filter (isCandidate oracle)).map
          Token.startRow) := by
  induction events with
  | nil => rfl
  | cons ev rest ih =>
    cases ev with
    | err e => cases e <;> rfl
    | tok t =>
      simp only [commented_out_code_line_numbers, ih, scannedTokens,
        List.filter_cons]
      cases hc : isCandidate oracle t <;> simp

theorem filter_lines_eq (m : List Nat) :
    ∀ (k : Nat) (ls : List (List Char)),
      filter_lines m k ls =
        (((List.range' k ls.length).zip ls).filter
          (fun p => !(decide (p.1 ∈ m)))).map Prod.snd
  | _, [] => rfl
  | k, l :: ls => by
    simp only [filter_lines, List.length_cons, List.range'_succ, List.zip_cons_cons,
      List.filter_cons]
    by_cases hk : k ∈ m <;>
      simp [hk, filter_lines_eq m (k + 1) ls]

theorem filter_lines_sublist (m : List Nat) :
    ∀ (k : Nat) (ls : List (List Char)),
      List.Sublist (filter_lines m k ls) ls
  | _, [] => List.Sublist.refl _
  | k, l :: ls => by
    simp only [filter_lines]
    by_cases hk : k ∈ m
    · simp only [hk, if_true]
      exact (filter_lines_sublist m (k + 1) ls).cons l
    · simp only [hk, if_false]
      exact (filter_lines_sublist m (k + 1) ls).cons₂ l

theorem filter_lines_length_sub (m : List Nat) :
    ∀ (k : Nat) (ls : List (List Char)),
      (filter_lines m k ls).length =
        ls.length -
          ((List.range' k ls.length).filter (fun x => decide (x ∈ m))).length
  | _, [] => rfl
  | k, l :: ls => by
    have hle :
        ((List.range' (k + 1) ls.length).filter
          (fun x => decide (x ∈ m))).length ≤ ls.length := by
      calc ((List.range' (k + 1) ls.length).filter
              (fun x => decide (x ∈ m))).length
          ≤ (List.range' (k + 1) ls.length).length :=
            List.length_filter_le _ _
        _ = ls.length := List.length_range' ..
    have ih := filter_lines_length_sub m (k + 1) ls
    simp only [filter_lines, List.length_cons, List.range'_succ,
      List.filter_cons]
    by_cases hk : k ∈ m
    · have h2 : decide (k ∈ m) = true := by simpa using hk
      rw [if_pos hk, ih, h2]
      simp only [if_true, List.length_cons]
      omega
    · have h2 : decide (k ∈ m) = false := by simpa using hk
      rw [if_neg hk, h2]
      simp only [Bool.false_eq_true, if_false, List.length_cons, ih]
      omega

theorem range'_filter_mem_length (m : List Nat) (n : Nat) (hnd : m.Nodup)
    (hall : ∀ x ∈ m, 1 ≤ x ∧ x ≤ n) :
    ((List.range' 1 n).filter (fun x => decide (x ∈ m))).length = m.length := by
  have hperm :
      List.Perm ((List.range' 1 n).filter (fun x => decide (x ∈ m))) m := by
    rw [List.perm_ext_iff_of_nodup ((List.nodup_range' 1 n).filter _) hnd]
    intro a
    simp only [List.mem_filter, List.mem_range'_1, decide_eq_true_eq]
    constructor
    · exact fun h => h.2
    · intro ha
      refine ⟨⟨(hall a ha).1, ?_⟩, ha⟩
      have := (hall a ha).2
      omega
  exact hperm.length_eq

theorem filter_lines_nil_marked :
    ∀ (k : Nat) (ls : List (List Char)), filter_lines [] k ls = ls
  | _, [] => rfl
  | k, l :: ls => by
    simp [filter_lines, filter_lines_nil_marked (k + 1) ls]

theorem mem_filter_lines (m : List Nat) :
    ∀ (ls : List (List Char)) (k i : Nat) (l : List Char),
      ls[i]? = some l → (k + i) ∉ m → l ∈ filter_lines m k ls
  | [], _, i, _, h, _ => by simp at h
  | x :: ls, k, 0, l, h, hm => by
    simp only [List.getElem?_cons_zero, Option.some.injEq] at h
    subst h
    simp only [filter_lines]
    rw [if_neg (by simpa using hm)]
    exact List.mem_cons_self _ _
  | x :: ls, k, i + 1, l, h, hm => by
    simp only [List.getElem?_cons_succ] at h
    have heq : k + 1 + i = k + (i + 1) := by omega
    have hrec : l ∈ filter_lines m (k + 1) ls :=
      mem_filter_lines m ls (k + 1) i l h (by rw [heq]; exact hm)
    simp only [filter_lines]
    by_cases hk : k ∈ m
    · rwa [if_pos hk]
    · rw [if_neg hk]
      exact List.mem_cons_of_mem _ hrec

theorem flatten_splitLines : ∀ cs : List Char, (splitLines cs).flatten = cs
  | [] => rfl
  | c :: cs => by
    by_cases hc : c = '\n'
    · simp [splitLines, hc, flatten_splitLines cs]
    · have ih := flatten_splitLines cs
      simp only [splitLines, hc, if_false]
      cases h : splitLines cs with
      | nil =>
        rw [h] at ih
        simp only [List.flatten_nil] at ih
        simp [← ih]
      | cons l ls =>
        rw [h] at ih
        simp only [List.flatten_cons] at ih ⊢
        simp [ih]

theorem stripLeadKw_self (kw s : List Char)
    (h : beginsWithWord kw s = false) : stripLeadKw kw s = s := by
  unfold beginsWithWord at h
  unfold stripLeadKw
  cases hs : stripStart kw s with
  | none => rfl
  | some r =>
    rw [hs] at h
    cases r with
    | nil => simp at h
    | cons c cr =>
      have h' : (!isWordChar c) = false := h
      have hw : isWordChar c = true := by
        cases hcw : isWordChar c
        · rw [hcw] at h'
          simp at h'
        · rfl
      simp [hw]

theorem mem_of_startsWith (a : Char) (p xs : List Char)
    (h : startsWithChars (a :: p) xs = true) : a ∈ xs := by
  cases xs with
  | nil => simp [startsWithChars] at h
  | cons c cs =>
    simp only [startsWithChars, Bool.and_eq_true, beq_iff_eq] at h
    rw [h.1]
    exact List.mem_cons_self _ _

theorem endsColon_contains (s : List Char)
    (h : endsColonShortcut s = true) : ':' ∈ s := by
  have key : ∀ x : Char, endsWithChars [x, ':'] s = true → ':' ∈ s := by
    intro x hx
    unfold endsWithChars at hx
    simp only [List.reverse_cons, List.reverse_nil, List.nil_append,
      List.cons_append] at hx
    have := mem_of_startsWith ':' [x] s.reverse hx
    exact List.mem_reverse.mp this
  unfold endsColonShortcut at h
  simp only [Bool.or_eq_true] at h
  rcases h with (h | h) | h
  · exact key ')' h
  · exact key ']' h
  · exact key '}' h

theorem gatePasses_of_mem_colon (s : List Char) (h : ':' ∈ s) :
    gatePasses s = true := by
  unfold gatePasses
  simp only [Bool.or_eq_true, List.any_eq_true]
  left
  exact ⟨':', by simp [gateSymbols], by simpa using h⟩

/-! ## Concrete oracles used by witnesses -/

/-- An oracle on which `compile` always succeeds. -/
def oracleAccept : Oracle := fun _ => none

/-- An oracle on which `compile` always raises a `SyntaxError`. -/
def oracleReject : Oracle := fun _ => some CompileExc.syntaxError

/-- An oracle matching CPython on the fragments of the `print return`
example: `compile('5')` succeeds, `compile('return 5')` raises
`SyntaxError`. -/
def oracleOnlyFive : Oracle := fun s =>
  if s = strChars "5" then none else some CompileExc.syntaxError

/-- An oracle on which `compile` always raises a `TypeError`. -/
def oracleTypeError : Oracle := fun _ => some CompileExc.typeError

/-! ## The claims -/

/-- C4: for every oracle and every input line, `comment_contains_code`
returns a boolean and never propagates an exception; and whenever
classification reaches the parse oracle and the oracle raises, the function
returns the definitive verdict `False`. -/
theorem C4_classification_failure_recovered (oracle : Oracle)
    (line : List Char) :
    (∃ b, comment_contains_code oracle line = Except.ok b) ∧
    (∀ e, reachesOracle line = true → oracle (normalizeBare line) = some e →
      comment_contains_code oracle line = Except.ok false) := by
  constructor
  · unfold comment_contains_code
    by_cases h1 : startsWithChars hashKw (pyLstrip line)
    case neg => exact ⟨false, by simp [h1]⟩
    by_cases h2 : gatePasses (bareText line)
    case neg => exact ⟨false, by simp [h1, h2]⟩
    by_cases h3 : endsColonShortcut (bareText line)
    case pos => exact ⟨true, by simp [h1, h2, h3]⟩
    by_cases h4 : kwColonShortcut (bareText line)
    case pos => exact ⟨true, by simp [h1, h2, h3, h4]⟩
    cases ho : oracle (normalizeBare line) with
    | none => exact ⟨true, by simp [h1, h2, h3, h4, ho]⟩
    | some e =>
      refine ⟨false, by cases e <;> simp [h1, h2, h3, h4, ho, compileCaught]⟩
  · intro e hreach ho
    have hr := hreach
    unfold reachesOracle at hr
    simp only [Bool.and_eq_true, Bool.not_eq_true'] at hr
    obtain ⟨⟨⟨h1, h2⟩, h3⟩, h4⟩ := hr
    unfold comment_contains_code
    cases e <;> simp [h1, h2, h3, h4, ho, compileCaught]

theorem C4_witness :
    reachesOracle (strChars "# x = 1") = true ∧
    oracleTypeError (normalizeBare (strChars "# x = 1")) =
      some CompileExc.typeError ∧
    comment_contains_code oracleTypeError (strChars "# x = 1") =
      Except.ok false :=
  ⟨rfl, rfl,
    (C4_classification_failure_recovered oracleTypeError
      (strChars "# x = 1")).2 CompileExc.typeError rfl rfl⟩

/-- C6: if a comment line's bare text contains none of the gate symbols as a
character and none of the gate keywords as a substring, then
`comment_contains_code` returns `False`, whatever the parse oracle does (the
oracle is never consulted). -/
theorem C6_plausibility_gate (oracle : Oracle) (line : List Char)
    (hc : startsWithChars hashKw (pyLstrip line) = true)
    (hsym : ∀ c ∈ gateSymbols, (bareText line).contains c = false)
    (hkw : ∀ k ∈ gateKeywords, containsSub k (bareText line) = false) :
    comment_contains_code oracle line = Except.ok false := by
  have hg : gatePasses (bareText line) = false := by
    unfold gatePasses
    simp only [Bool.or_eq_false_iff, List.any_eq_false]
    constructor
    · intro c hcg
      simpa using hsym c hcg
    · intro k hkg
      simp [hkw k hkg]
  simp [comment_contains_code, hc, hg]

theorem C6_witness :
    startsWithChars hashKw (pyLstrip (strChars "# This is prose.")) = true ∧
    (∀ c ∈ gateSymbols,
      (bareText (strChars "# This is prose.")).contains c = false) ∧
    (∀ k ∈ gateKeywords,
      containsSub k (bareText (strChars "# This is prose.")) = false) ∧
    comment_contains_code oracleAccept (strChars "# This is prose.") =
      Except.ok false :=
  ⟨rfl, by decide, by decide,
    C6_plausibility_gate oracleAccept (strChars "# This is prose.") rfl
      (by decide) (by decide)⟩

/-- C7: a comment line whose bare text ends with a closing bracket followed
by a colon is classified as code regardless of the parse oracle — the
block-header shortcut fires before any parse attempt. -/
theorem C7_block_header_shortcut (oracle : Oracle) (line : List Char)
    (hc : startsWithChars hashKw (pyLstrip line) = true)
    (he : endsColonShortcut (bareText line) = true) :
    comment_contains_code oracle line = Except.ok true := by
  have hg : gatePasses (bareText line) = true :=
    gatePasses_of_mem_colon _ (endsColon_contains _ he)
  simp [comment_contains_code, hc, hg, he]

theorem C7_witness :
    startsWithChars hashKw (pyLstrip (strChars "#     baz):")) = true ∧
    endsColonShortcut (bareText (strChars "#     baz):")) = true ∧
    comment_contains_code oracleReject (strChars "#     baz):") =
      Except.ok true :=
  ⟨rfl, rfl,
    C7_block_header_shortcut oracleReject (strChars "#     baz):") rfl rfl⟩

/-- C5 counterexample: on the bare text `print return 5` the code's
normalization strips two leading keywords (first `print`, then `return`),
not the single keyword the claim describes, and the difference is observable
in the classification verdict under the CPython-matching oracle. -/
theorem C5_counterexample :
    normalizeBareText (bareText (strChars "# print return 5")) =
      strChars "5" ∧
    strip_single_keyword (bareText (strChars "# print return 5")) =
      strChars "return 5" ∧
    strChars "5" ≠ strChars "return 5" ∧
    comment_contains_code oracleOnlyFive (strChars "# print return 5") =
      Except.ok true :=
  ⟨rfl, rfl, by decide, rfl⟩

/-- C5 amended: normalization applies two anchored whole-word strips in
order — first a leading `print`, then a leading `return` on the result.
When the bare text does not begin with both keywords in that order this
agrees with stripping a single leading keyword; when it begins with `print`
followed by whole-word `return`, both keywords are removed. -/
theorem C5_amended_normalization (s : List Char) :
    (beginsWithWord printKw s = false →
      normalizeBareText s = strip_single_keyword s) ∧
    (beginsWithWord printKw s = true →
      beginsWithWord returnKw (stripLeadKw printKw s) = false →
      normalizeBareText s = strip_single_keyword s) ∧
    (beginsWithWord printKw s = true →
      beginsWithWord returnKw (stripLeadKw printKw s) = true →
      normalizeBareText s =
        stripLeadKw returnKw (strip_single_keyword s)) := by
  refine ⟨?_, ?_, ?_⟩
  · intro hp
    unfold normalizeBareText strip_single_keyword
    rw [stripLeadKw_self printKw s hp]
    simp only [hp, Bool.false_eq_true, if_false]
    by_cases hr : beginsWithWord returnKw s
    · simp [hr]
    · rw [stripLeadKw_self returnKw s (by simpa using hr)]
      simp [hr]
  · intro hp hr
    unfold normalizeBareText strip_single_keyword
    rw [stripLeadKw_self returnKw _ hr]
    simp [hp]
  · intro hp _
    unfold normalizeBareText strip_single_keyword
    simp [hp]

theorem C5_amended_witness :
    beginsWithWord printKw (strChars "print return 5") = true ∧
    beginsWithWord returnKw
      (stripLeadKw printKw (strChars "print return 5")) = true ∧
    normalizeBareText (strChars "print return 5") =
      stripLeadKw returnKw (strip_single_keyword (strChars "print return 5")) :=
  ⟨rfl, rfl,
    (C5_amended_normalization (strChars "print return 5")).2.2 rfl rfl⟩

/-- C1: the filter's output is the source's lines with exactly the marked
1-based line numbers removed — retained lines are the original line strings
(terminators included) in their original relative order (a sublist of the
input's lines), and when the marked set is duplicate-free and in range the
number of output lines is the number of input lines minus the size of the
marked set. -/
theorem C1_filter_contract (oracle : Oracle) (events : List TokEvent)
    (source : List Char) (marked : List Nat)
    (hm : commented_out_code_line_numbers oracle events = Except.ok marked)
    (hnd : marked.Nodup)
    (hrange : ∀ x ∈ marked, 1 ≤ x ∧ x ≤ (splitLines source).length) :
    filter_commented_out_code oracle events source =
      Except.ok (filter_lines marked 1 (splitLines source)) ∧
    filter_lines marked 1 (splitLines source) =
      (((List.range' 1 (splitLines source).length).zip
        (splitLines source)).filter
        (fun p => !(decide (p.1 ∈ marked)))).map Prod.snd ∧
    List.Sublist (filter_lines marked 1 (splitLines source))
      (splitLines source) ∧
    (filter_lines marked 1 (splitLines source)).length =
      (splitLines source).length - marked.length := by
  refine ⟨?_, filter_lines_eq marked 1 _, filter_lines_sublist marked 1 _, ?_⟩
  · unfold filter_commented_out_code
    rw [hm]
  · rw [filter_lines_length_sub marked 1 _,
      range'_filter_mem_length marked _ hnd hrange]

def c1Source : List Char := strChars "a\n# x = 1\nb\n"

def c1Events : List TokEvent :=
  [TokEvent.tok ⟨TokKind.comment, 2, strChars "# x = 1\n"⟩]

theorem C1_witness :
    (commented_out_code_line_numbers oracleAccept c1Events =
      Except.ok [2] ∧
     ([2] : List Nat).Nodup ∧
     ∀ x ∈ ([2] : List Nat), 1 ≤ x ∧ x ≤ (splitLines c1Source).length) ∧
    (filter_commented_out_code oracleAccept c1Events c1Source =
      Except.ok (filter_lines [2] 1 (splitLines c1Source)) ∧
     filter_lines [2] 1 (splitLines c1Source) =
      (((List.range' 1 (splitLines c1Source).length).zip
        (splitLines c1Source)).filter
        (fun p => !(decide (p.1 ∈ ([2] : List Nat))))).map Prod.snd ∧
     List.Sublist (filter_lines [2] 1 (splitLines c1Source))
      (splitLines c1Source) ∧
     (filter_lines [2] 1 (splitLines c1Source)).length =
      (splitLines c1Source).length - ([2] : List Nat).length) :=
  ⟨⟨rfl, by decide, by decide⟩,
    C1_filter_contract oracleAccept c1Events c1Source [2] rfl (by decide)
      (by decide)⟩

/-- C2: pass one marks every scanned candidate comment token whose line is
classified as code (so none of those lines remains in the output), and
filtering any text whose token stream contains no token classified as code
returns the text's lines unchanged — together, the §8 form of idempotence:
a second pass over output containing no classifiable candidates changes
nothing. -/
theorem C2_second_pass_identity (oracle : Oracle) (ev1 ev2 : List TokEvent)
    (out : List Char) (marked1 : List Nat)
    (hm : commented_out_code_line_numbers oracle ev1 = Except.ok marked1) :
    (∀ t ∈ scannedTokens ev1, isCandidate oracle t = true →
      t.startRow ∈ marked1) ∧
    ((∀ t ∈ scannedTokens ev2, isCandidate oracle t = false) →
      filter_commented_out_code oracle ev2 out =
        Except.ok (splitLines out)) := by
  constructor
  · intro t ht hcand
    rw [numbers_eq oracle ev1] at hm
    simp only [Except.ok.injEq] at hm
    subst hm
    exact List.mem_map_of_mem _ (List.mem_filter.mpr ⟨ht, hcand⟩)
  · intro hall
    unfold filter_commented_out_code
    rw [numbers_eq oracle ev2]
    have hnil : (scannedTokens ev2).filter (isCandidate oracle) = [] := by
      rw [List.filter_eq_nil_iff]
      intro t ht
      simp [hall t ht]
    rw [hnil]
    simp [filter_lines_nil_marked]

def wEvents : List TokEvent :=
  [TokEvent.tok ⟨TokKind.comment, 1, strChars "# x = 1\n"⟩,
   TokEvent.tok ⟨TokKind.other, 2, strChars "y = 2\n"⟩,
   TokEvent.tok ⟨TokKind.comment, 3, strChars "# prose here\n"⟩]

def wSource : List Char := strChars "# x = 1\ny = 2\n# prose here\n"

def wOut : List Char := strChars "y = 2\n# prose here\n"

def wEvents2 : List TokEvent :=
  [TokEvent.tok ⟨TokKind.other, 1, strChars "y = 2\n"⟩,
   TokEvent.tok ⟨TokKind.comment, 2, strChars "# prose here\n"⟩]

theorem C2_witness :
    commented_out_code_line_numbers oracleAccept wEvents =
      Except.ok [1] ∧
    (∀ t ∈ scannedTokens wEvents2, isCandidate oracleAccept t = false) ∧
    filter_commented_out_code oracleAccept wEvents2 wOut =
      Except.ok (splitLines wOut) :=
  ⟨rfl, by decide,
    (C2_second_pass_identity oracleAccept wEvents wEvents2 wOut [1] rfl).2
      (by decide)⟩

/-- C3: every marked line number is the start row of a scanned COMMENT token
whose raw line, after stripping leading whitespace, begins with `#`; and a
source line that does not begin with `#` after stripping leading whitespace
is never marked and survives the filter. -/
theorem C3_only_pure_comment_lines (oracle : Oracle)
    (events : List TokEvent) (source : List Char) (marked : List Nat)
    (hm : commented_out_code_line_numbers oracle events = Except.ok marked)
    (hcons : ∀ t ∈ scannedTokens events, t.kind = TokKind.comment →
      (splitLines source)[t.startRow - 1]? = some t.line) :
    (∀ i ∈ marked, ∃ t ∈ scannedTokens events,
      t.kind = TokKind.comment ∧ t.startRow = i ∧
      startsWithChars hashKw (pyLstrip t.line) = true) ∧
    (∀ i l, (splitLines source)[i - 1]? = some l →
      startsWithChars hashKw (pyLstrip l) = false →
      i ∉ marked ∧
        (1 ≤ i → l ∈ filter_lines marked 1 (splitLines source))) := by
  rw [numbers_eq oracle events] at hm
  simp only [Except.ok.injEq] at hm
  subst hm
  have hmem : ∀ i,
      i ∈ ((scannedTokens events).filter (isCandidate oracle)).map
        Token.startRow →
      ∃ t ∈ scannedTokens events, t.kind = TokKind.comment ∧
        t.startRow = i ∧ startsWithChars hashKw (pyLstrip t.line) = true := by
    intro i hi
    obtain ⟨t, htf, hrow⟩ := List.mem_map.mp hi
    obtain ⟨hts, hcand⟩ := List.mem_filter.mp htf
    unfold isCandidate at hcand
    simp only [Bool.and_eq_true, decide_eq_true_eq] at hcand
    exact ⟨t, hts, hcand.1.1, hrow, hcand.1.2⟩
  refine ⟨hmem, ?_⟩
  intro i l hl hns
  have hnotin :
      i ∉ ((scannedTokens events).filter (isCandidate oracle)).map
        Token.startRow := by
    intro hi
    obtain ⟨t, hts, hkind, hrow, hsw⟩ := hmem i hi
    have hc := hcons t hts hkind
    rw [hrow, hl] at hc
    have hline : l = t.line := by
      simpa using hc
    rw [← hline, hns] at hsw
    exact Bool.noConfusion hsw
  refine ⟨hnotin, fun h1 => ?_⟩
  apply mem_filter_lines _ _ 1 (i - 1) l hl
  have heq : 1 + (i - 1) = i := by omega
  rw [heq]
  exact hnotin

theorem C3_witness :
    commented_out_code_line_numbers oracleAccept wEvents =
      Except.ok [1] ∧
    (∀ t ∈ scannedTokens wEvents, t.kind = TokKind.comment →
      (splitLines wSource)[t.startRow - 1]? = some t.line) ∧
    2 ∉ ([1] : List Nat) ∧
    strChars "y = 2\n" ∈ filter_lines [1] 1 (splitLines wSource) := by
  have h := C3_only_pure_comment_lines oracleAccept wEvents wSource [1] rfl
    (by decide)
  have h2 := h.2 2 (strChars "y = 2\n") rfl rfl
  exact ⟨rfl, by decide, h2.1, h2.2 (by omega)⟩

/-- C8: when the token iterator raises a `TokenError` or `IndentationError`
after an error-free prefix, `commented_out_code_line_numbers` does not
raise: it returns exactly the rows collected from the scanned prefix —
events after the failure contribute nothing — and the filter uses those
retained rows. -/
theorem C8_tokenization_failure_tolerated (oracle : Oracle)
    (pre post : List TokEvent) (e : TokErr) (source : List Char)
    (hpre : ∀ ev ∈ pre, isTokEvent ev = true) :
    commented_out_code_line_numbers oracle (pre ++ TokEvent.err e :: post) =
      Except.ok (((scannedTokens pre).filter (isCandidate oracle)).map
        Token.startRow) ∧
    commented_out_code_line_numbers oracle (pre ++ TokEvent.err e :: post) =
      commented_out_code_line_numbers oracle pre ∧
    filter_commented_out_code oracle (pre ++ TokEvent.err e :: post)
        source =
      Except.ok (filter_lines
        (((scannedTokens pre).filter (isCandidate oracle)).map
          Token.startRow) 1 (splitLines source)) := by
  have hs := scannedTokens_append_err pre e post hpre
  have h1 := numbers_eq oracle (pre ++ TokEvent.err e :: post)
  rw [hs] at h1
  refine ⟨h1, ?_, ?_⟩
  · rw [h1, numbers_eq oracle pre]
  · unfold filter_commented_out_code
    rw [h1]

def c8Pre : List TokEvent :=
  [TokEvent.tok ⟨TokKind.comment, 1, strChars "# x = 1\n"⟩]

def c8Post : List TokEvent :=
  [TokEvent.tok ⟨TokKind.comment, 3, strChars "# y = 2\n"⟩]

def c8Source : List Char := strChars "# x = 1\nz = '''\n# y = 2\n"

theorem C8_witness :
    (∀ ev ∈ c8Pre, isTokEvent ev = true) ∧
    commented_out_code_line_numbers oracleAccept
      (c8Pre ++ TokEvent.err TokErr.tokenError :: c8Post) =
      Except.ok [1] ∧
    filter_commented_out_code oracleAccept
      (c8Pre ++ TokEvent.err TokErr.tokenError :: c8Post) c8Source =
      Except.ok (filter_lines [1] 1 (splitLines c8Source)) := by
  have h := C8_tokenization_failure_tolerated oracleAccept c8Pre c8Post
    TokErr.tokenError c8Source (by decide)
  exact ⟨by decide, h.1, h.2.2⟩

/-- C9: when no comment is classified as code the marked set is empty, the
filtered text is byte-identical to the source, and `fix_file` performs no
write and emits no diff in either mode. -/
theorem C9_noop_on_empty_marked (inPlace : Bool) (oracle : Oracle)
    (events : List TokEvent) (source : List Char)
    (h : commented_out_code_line_numbers oracle events = Except.ok []) :
    filter_commented_out_code oracle events source =
      Except.ok (splitLines source) ∧
    joinLines (splitLines source) = source ∧
    fix_file inPlace oracle events source = Except.ok FixAction.noChange := by
  have hid : filter_lines [] 1 (splitLines source) = splitLines source :=
    filter_lines_nil_marked 1 _
  have hjoin : joinLines (splitLines source) = source := by
    unfold joinLines
    exact flatten_splitLines source
  refine ⟨?_, hjoin, ?_⟩
  · simp [filter_commented_out_code, h, hid]
  · simp [fix_file, filter_commented_out_code, h, hid, hjoin]

theorem C9_witness :
    commented_out_code_line_numbers oracleAccept wEvents2 =
      Except.ok [] ∧
    joinLines (splitLines wOut) = wOut ∧
    fix_file true oracleAccept wEvents2 wOut =
      Except.ok FixAction.noChange ∧
    fix_file false oracleAccept wEvents2 wOut =
      Except.ok FixAction.noChange := by
  have ht := C9_noop_on_empty_marked true oracleAccept wEvents2 wOut rfl
  have hf := C9_noop_on_empty_marked false oracleAccept wEvents2 wOut rfl
  exact ⟨rfl, ht.2.1, ht.2.2, hf.2.2⟩

/-- C10: given that the scanned COMMENT tokens appear with strictly
increasing start rows (the tokenizer produces them in source order, one per
line), the yielded marked line numbers are strictly increasing and
duplicate-free, and each is the start row of a scanned COMMENT token. -/
theorem C10_marked_strictly_increasing (oracle : Oracle)
    (events : List TokEvent) (marked : List Nat)
    (hm : commented_out_code_line_numbers oracle events = Except.ok marked)
    (hmono : (((scannedTokens events).filter
      (fun t => decide (t.kind = TokKind.comment))).map
        Token.startRow).Pairwise (· < ·)) :
    marked.Pairwise (· < ·) ∧ marked.Nodup ∧
    ∀ i ∈ marked, ∃ t ∈ scannedTokens events,
      t.kind = TokKind.comment ∧ t.startRow = i := by
  rw [numbers_eq oracle events] at hm
  simp only [Except.ok.injEq] at hm
  subst hm
  have hsub :
      List.Sublist ((scannedTokens events).filter (isCandidate oracle))
        ((scannedTokens events).filter
          (fun t => decide (t.kind = TokKind.comment))) := by
    apply List.monotone_filter_right
    intro t ht
    unfold isCandidate at ht
    simp only [Bool.and_eq_true] at ht
    exact ht.1.1
  have hpw :
      (((scannedTokens events).filter (isCandidate oracle)).map
        Token.startRow).Pairwise (· < ·) :=
    hmono.sublist (hsub.map Token.startRow)
  refine ⟨hpw, hpw.imp Nat.ne_of_lt, ?_⟩
  intro i hi
  obtain ⟨t, htf, hrow⟩ := List.mem_map.mp hi
  obtain ⟨hts, hcand⟩ := List.mem_filter.mp htf
  unfold isCandidate at hcand
  simp only [Bool.and_eq_true, decide_eq_true_eq] at hcand
  exact ⟨t, hts, hcand.1.1, hrow⟩

def c10Events : List TokEvent :=
  [TokEvent.tok ⟨TokKind.comment, 1, strChars "# x = 1\n"⟩,
   TokEvent.tok ⟨TokKind.other, 2, strChars "y = 2\n"⟩,
   TokEvent.tok ⟨TokKind.comment, 3, strChars "# z = 3\n"⟩]

theorem C10_witness :
    commented_out_code_line_numbers oracleAccept c10Events =
      Except.ok [1, 3] ∧
    (((scannedTokens c10Events).filter
      (fun t => decide (t.kind = TokKind.comment))).map
        Token.startRow).Pairwise (· < ·) ∧
    ([1, 3] : List Nat).Pairwise (· < ·) ∧
    ([1, 3] : List Nat).Nodup := by
  have h := C10_marked_strictly_increasing oracleAccept c10Events [1, 3]
    rfl (by decide)
  exact ⟨rfl, by decide, h.1, h.2.1⟩

end Eradicate
